import Mathlib

/-!
Verification development for the KiCad IPC board parser
(`InteractiveHtmlBom/ecad/kicad_ipc.py`), a board-geometry normalization
engine.  The Python source is shallowly embedded below: native nanometre
integer coordinates become rationals (`ℚ`), Python dicts become Lean
structures with `Option` fields for optional keys, the global logger
becomes an explicit log list where a claim depends on diagnostics, and the
one in-place mutation (text variable expansion) becomes explicit
state-passing of a text store through the parse.
-/

namespace KiCadIPC

/-- Native 2-D vector of integer nanometre coordinates (kipy `Vector2`),
embedded over `ℚ`. -/
structure Vector2 where
  x : ℚ
  y : ℚ
deriving DecidableEq, Repr

instance : Inhabited Vector2 := ⟨⟨0, 0⟩⟩

def Vector2.add (a b : Vector2) : Vector2 := ⟨a.x + b.x, a.y + b.y⟩

def Vector2.neg (a : Vector2) : Vector2 := ⟨-a.x, -a.y⟩

/-- Axis-aligned box (kipy `Box2`): position is the min corner, in
nanometres. -/
structure Box where
  pos : Vector2
  size : Vector2
deriving DecidableEq, Repr

/-- Embedding of `Box2.move`: translate the box by a vector. -/
def Box.move (b : Box) (v : Vector2) : Box := { b with pos := b.pos.add v }

/-- Embedding of `Box2.merge`: smallest box containing both (min/max union), the
accumulation step of the board-outline bounding box. -/
def Box.merge (a b : Box) : Box :=
  let minx := min a.pos.x b.pos.x
  let miny := min a.pos.y b.pos.y
  let maxx := max (a.pos.x + a.size.x) (b.pos.x + b.size.x)
  let maxy := max (a.pos.y + a.size.y) (b.pos.y + b.size.y)
  { pos := ⟨minx, miny⟩, size := ⟨maxx - minx, maxy - miny⟩ }

/-- Board layers used by the parser (kipy `BoardLayer`); `other` covers
every remaining member of the native enum. -/
inductive BoardLayer where
  | F_Cu
  | B_Cu
  | Edge_Cuts
  | F_SilkS
  | B_SilkS
  | F_Fab
  | B_Fab
  | other (n : Nat)
deriving DecidableEq, Repr

/-- Embedding of `KiCadIPCParser.normalize` on a `Vector2`: nanometres to millimetres,
returned as a two-element list exactly as the source does. -/
def normalize (point : Vector2) : List ℚ :=
  [point.x * (1 / 1000000), point.y * (1 / 1000000)]

/-- Embedding of `KiCadIPCParser.normalize` on a scalar length (the non-`Vector2`
overload branch). -/
def normalizeScalar (point : ℚ) : ℚ :=
  point * (1 / 1000000)

/-- Duck-typed angle input of `normalize_angle`: either a raw number in
tenths of a degree or a structured `Angle` already in degrees. -/
inductive AngleVal where
  | raw (v : ℚ)
  | angle (degrees : ℚ)
deriving DecidableEq, Repr

/-- Embedding of `KiCadIPCParser.normalize_angle`. -/
def normalize_angle : AngleVal → ℚ
  | .raw v => v * (1 / 10)
  | .angle d => d

/-- Diagnostics emitted through the logger, where a claim depends on
them. -/
inductive Log where
  | info (msg : String)
  | warn (msg : String)
  | error (msg : String)
deriving DecidableEq, Repr

/-- Arc node payload inside a polygon outline (kipy `ArcStart`/mid/end
triple); the parser never reads it, only warns. -/
structure ArcNode where
  start : Vector2
  mid : Vector2
  stop : Vector2
deriving DecidableEq, Repr

/-- One node of a `PolygonWithHoles` outline: the protobuf oneof of a
point or an arc. -/
inductive PolyNode where
  | point (v : Vector2)
  | arc (a : ArcNode)
deriving DecidableEq, Repr

def PolyNode.move (off : Vector2) : PolyNode → PolyNode
  | .point v => .point (v.add off)
  | .arc a => .arc ⟨a.start.add off, a.mid.add off, a.stop.add off⟩

/-- kipy `PolygonWithHoles`: an outline node list (the parser reads only
the outline, holes are ignored by `parse_polygon`). -/
structure PolygonWithHoles where
  outline : List PolyNode
  holes : List (List PolyNode)
deriving DecidableEq, Repr

/-- Embedding of `PolygonWithHoles.move`: translate all nodes. -/
def PolygonWithHoles.move (p : PolygonWithHoles) (off : Vector2) : PolygonWithHoles :=
  { outline := p.outline.map (PolyNode.move off),
    holes := p.holes.map (fun h => h.map (PolyNode.move off)) }

/-- Embedding of `KiCadIPCParser.parse_polygon` on a `PolygonWithHoles`: walk the
outline nodes in order; a point node appends its normalized point, an arc
node logs a warning and contributes nothing.  Returns the point list
together with the emitted diagnostics. -/
def parse_polygon (p : PolygonWithHoles) : List (List ℚ) × List Log :=
  go p.outline
where
  go : List PolyNode → List (List ℚ) × List Log
    | [] => ([], [])
    | .point v :: rest =>
      let (pts, logs) := go rest
      (normalize v :: pts, logs)
    | .arc _ :: rest =>
      let (pts, logs) := go rest
      (pts, Log.warn "Arcs in polygons are not supported in IPC prototype" :: logs)

/-- kipy `PadStackShape` protobuf enum.  `PSS_UNKNOWN` is the enum's
unset/unrecognized member, the only code outside the parser's fixed
shape table. -/
inductive PadStackShape where
  | PSS_UNKNOWN
  | PSS_CIRCLE
  | PSS_OVAL
  | PSS_RECTANGLE
  | PSS_TRAPEZOID
  | PSS_ROUNDRECT
  | PSS_CUSTOM
  | PSS_CHAMFEREDRECT
deriving DecidableEq, Repr

/-- kipy `PadType` members the parser distinguishes. -/
inductive PadType where
  | PT_PTH
  | PT_NPTH
  | PT_SMD
  | PT_UNKNOWN
deriving DecidableEq, Repr

/-- kipy `DrillShape`. -/
inductive DrillShape where
  | DS_CIRCLE
  | DS_OBLONG
  | DS_UNKNOWN
deriving DecidableEq, Repr

/-- kipy `ChamferedRectCorners`. -/
structure ChamferedRectCorners where
  top_left : Bool
  top_right : Bool
  bottom_left : Bool
  bottom_right : Bool
deriving DecidableEq, Repr

/-- One copper layer of a padstack (kipy `PadStackLayer`). -/
structure StackLayer where
  shape : PadStackShape
  size : Vector2
  trapezoid_delta : Vector2
  corner_rounding_ratio : ℚ
  chamfer_ratio : ℚ
  chamfered_corners : ChamferedRectCorners
  offset : Vector2
deriving DecidableEq, Repr

/-- kipy drill properties of a padstack. -/
structure DrillProps where
  shape : DrillShape
  diameter : Vector2
deriving DecidableEq, Repr

/-- kipy `PadStack`.  `copper0` embeds `copper_layers[0]`, the only
element the parser reads (kipy padstacks always carry at least one copper
layer); `masked` embeds the `is_masked()` predicate. -/
structure PadStack where
  layers : List BoardLayer
  angle : AngleVal
  copper0 : StackLayer
  drill : DrillProps
  masked : Bool
deriving DecidableEq, Repr

/-- Input pad (kipy `Pad`). -/
structure PadIn where
  number : String
  position : Vector2
  pad_type : PadType
  padstack : PadStack
  net : String
deriving DecidableEq, Repr

/-- Configuration flags consumed by the parser. -/
structure Config where
  include_nets : Bool
  include_tracks : Bool
deriving DecidableEq, Repr

/-- Output pad record (`pad_dict`): the Python dict with its optional
keys as `Option` fields.  `pin1 = true` models the presence of the
`pin1` key, which only the footprint translator ever sets. -/
structure PadDict where
  layers : List String
  pos : List ℚ
  size : List ℚ
  angle : ℚ
  shape : String
  polygons : Option (List (List (List ℚ))) := none
  radius : Option ℚ := none
  chamfpos : Option Nat := none
  chamfratio : Option ℚ := none
  padtype : String := ""
  drillshape : Option String := none
  drillsize : Option (List ℚ) := none
  offset : List ℚ := []
  net : Option String := none
  pin1 : Bool := false
deriving DecidableEq, Repr

/-- Embedding of `parse_chamfered_corners`: 4-bit corner mask. -/
def parse_chamfered_corners (corners : ChamferedRectCorners) : Nat :=
  let r := 0
  let r := if corners.top_left then r ||| 1 else r
  let r := if corners.top_right then r ||| 2 else r
  let r := if corners.bottom_left then r ||| 4 else r
  let r := if corners.bottom_right then r ||| 8 else r
  r

/-- The fixed shape-code → tag table of `parse_pad` (the `.get(shape,
"")` dict); an unknown code yields the empty tag. -/
def padShapeTag : PadStackShape → String
  | .PSS_CIRCLE => "circle"
  | .PSS_OVAL => "oval"
  | .PSS_RECTANGLE => "rect"
  | .PSS_TRAPEZOID => "trapezoid"
  | .PSS_ROUNDRECT => "roundrect"
  | .PSS_CUSTOM => "custom"
  | .PSS_CHAMFEREDRECT => "chamfrect"
  | .PSS_UNKNOWN => ""

/-- The board's `get_pad_shapes_as_polygons` capability, consumed by the
custom-pad branch: an absolute-coordinate outline, or `none` when the
board cannot produce one.  Modeled as a function field of the board
context; IPC reads return freshly deserialized copies, so the returned
polygon never aliases board state. -/
abbrev PadPolyFetch := PadIn → Option PolygonWithHoles

/-- Embedding of `KiCadIPCParser.parse_pad`: translate one pad into a `PadDict`, or
`none` (plus a single info diagnostic) when the padstack shape code is
not in the fixed table.  The second component collects the diagnostics
this call emits. -/
def parse_pad (config : Config) (fetch : PadPolyFetch) (pad : PadIn) :
    Option PadDict × List Log :=
  let layers_set := pad.padstack.layers
  let layers := (if layers_set.contains BoardLayer.F_Cu then ["F"] else []) ++
    (if layers_set.contains BoardLayer.B_Cu then ["B"] else [])
  let pos := normalize pad.position
  let angle := normalize_angle pad.padstack.angle
  let stack_layer := pad.padstack.copper0
  let size := normalize stack_layer.size
  let shape := padShapeTag stack_layer.shape
  if shape = "" then
    (none, [Log.info "Unsupported pad shape, skipping."])
  else
    let pad_dict : PadDict :=
      { layers := layers, pos := pos, size := size, angle := angle, shape := shape }
    let (pad_dict, logs) :=
      if shape = "custom" then
        match fetch pad with
        | some polygon =>
          -- get_pad_shapes_as_polygons returns absolute positions; translate
          -- the fetched copy to pad-relative coordinates.
          let polygon := polygon.move pad.position.neg
          let (pts, plogs) := parse_polygon polygon
          ({ pad_dict with polygons := some [pts] }, plogs)
        | none =>
          ({ pad_dict with polygons := some [] },
           [Log.warn "Custom pad shape could not be retrieved"])
      else (pad_dict, [])
    let pad_dict :=
      if shape = "trapezoid" then
        -- treat trapezoid as custom shape
        let delta := normalize stack_layer.trapezoid_delta
        let sx := size.getD 0 0
        let sy := size.getD 1 0
        let dx := delta.getD 0 0
        let dy := delta.getD 1 0
        { pad_dict with
          shape := "custom",
          polygons := some [[
            [sx / 2 + dy / 2, sy / 2 - dx / 2],
            [-sx / 2 - dy / 2, sy / 2 + dx / 2],
            [-sx / 2 + dy / 2, -sy / 2 - dx / 2],
            [sx / 2 - dy / 2, -sy / 2 + dx / 2]]] }
      else pad_dict
    let pad_dict :=
      if shape = "roundrect" ∨ shape = "chamfrect" then
        { pad_dict with
          radius := some (stack_layer.corner_rounding_ratio *
            min (size.getD 0 0) (size.getD 1 0)) }
      else pad_dict
    let pad_dict :=
      if shape = "chamfrect" then
        { pad_dict with
          chamfpos := some (parse_chamfered_corners stack_layer.chamfered_corners),
          chamfratio := some stack_layer.chamfer_ratio }
      else pad_dict
    let pad_dict :=
      if pad.pad_type = PadType.PT_PTH ∨ pad.pad_type = PadType.PT_NPTH then
        { pad_dict with
          padtype := "th",
          drillshape := some (match pad.padstack.drill.shape with
            | .DS_CIRCLE => "circle"
            | .DS_OBLONG => "oblong"
            | _ => "circle"),
          drillsize := some (normalize pad.padstack.drill.diameter) }
      else { pad_dict with padtype := "smd" }
    let pad_dict := { pad_dict with offset := normalize stack_layer.offset }
    let pad_dict :=
      if config.include_nets then { pad_dict with net := some pad.net } else pad_dict
    (some pad_dict, logs)

/-- Python string comparison: lexicographic on Unicode code points,
on the character lists. -/
def lexLe : List Char → List Char → Bool
  | [], _ => true
  | _ :: _, [] => false
  | a :: as, b :: bs =>
    if a.toNat < b.toNat then true
    else if b.toNat < a.toNat then false
    else lexLe as bs

/-- Python `<=` on strings (code-point lexicographic order), used by
`sorted` on pad-number strings. -/
def strLe (a b : String) : Bool := lexLe a.data b.data

/-- Stable insertion into a sorted list (helper of `insSort`). -/
def ordIns (le : α → α → Bool) (a : α) : List α → List α
  | [] => [a]
  | b :: l => if le a b then a :: b :: l else b :: ordIns le a l

/-- Stable sort by a boolean relation; embeds Python's stable `sorted`.
Insertion sort is used because it is structurally recursive, hence
kernel-computable; it agrees with any stable sort for a total order. -/
def insSort (le : α → α → Bool) : List α → List α
  | [] => []
  | a :: l => ordIns le a (insSort le l)

/-- Output drawing record (tagged dict produced by `parse_shape` /
`parse_text`). -/
inductive Shape where
  | segment (start stop : List ℚ) (width : ℚ)
  | circle (start : List ℚ) (radius : ℚ) (width : ℚ) (filled : Int)
  | arc (start : List ℚ) (radius : ℚ) (startangle endangle : Option ℚ) (width : ℚ)
  | polygon (pos : List ℚ) (angle : ℚ) (polygons : List (List (List ℚ)))
      (filled : Option Int) (width : Option ℚ)
  | curve (start cpa cpb stop : List ℚ) (width : ℚ)
  | textpath (thickness : ℚ) (svgpath : String)
  | textpolys (polygons : List (List (List ℚ)))
deriving DecidableEq, Repr

/-- Geometry payload of one native non-text drawable.  Arc start/end
angles embed the results of `start_angle()`/`end_angle()` in degrees
(`none` when the native geometry does not resolve an angle); the
radians-to-degrees rescale of the source is absorbed into the field.
`unsupported` stands for every `BoardShape` subtype without a
`parse_shape` branch. -/
inductive ShapeData where
  | segment (start stop : Vector2) (width : ℚ)
  | circle (center : Vector2) (radius : ℚ) (width : ℚ) (filled : Bool)
  | arc (center : Vector2) (radius : ℚ) (a1 a2 : Option ℚ) (width : ℚ)
  | polygon (polys : List PolygonWithHoles) (filled : Bool) (width : ℚ)
  | bezier (start control1 control2 stop : Vector2) (width : ℚ)
  | rectangle (top_left bottom_right : Vector2) (width : ℚ) (filled : Bool)
  | unsupported (typeName : String)
deriving DecidableEq, Repr

/-- One non-text drawable with its layer and the result of its
`bounding_box()` API call. -/
structure ShapeItem where
  layer : BoardLayer
  bbox : Box
  data : ShapeData
deriving DecidableEq, Repr

/-- Shape-kind branches of `parse_shape` (everything except the
`BoardText`/`BoardTextBox`/`Field` dispatch, which needs board state). -/
def parse_shape_item (d : ShapeData) : Option Shape :=
  match d with
  | .segment start stop width =>
    some (.segment (normalize start) (normalize stop) (normalizeScalar width))
  | .circle center radius width filled =>
    some (.circle (normalize center) (normalizeScalar radius)
      (normalizeScalar width) (if filled then 1 else 0))
  | .arc center radius a1 a2 width =>
    some (.arc (normalize center) (normalizeScalar radius) a1 a2
      (normalizeScalar width))
  | .polygon polys filled width =>
    some (.polygon [0, 0] 0 (polys.map (fun p => (parse_polygon p).1))
      (if filled then none else some 0)
      (if filled then none else some (normalizeScalar width)))
  | .bezier start c1 c2 stop width =>
    some (.curve (normalize start) (normalize c1) (normalize c2)
      (normalize stop) (normalizeScalar width))
  | .rectangle tl br width filled =>
    let start := normalize tl
    let stop := normalize br
    let points := [start, [stop.getD 0 0, start.getD 1 0], stop,
      [start.getD 0 0, stop.getD 1 0]]
    some (.polygon [0, 0] 0 [points] (some (if filled then 1 else 0))
      (some (normalizeScalar width)))
  | .unsupported _ => none

/-- One text object in the board's text store (`BoardText`, a
`BoardTextBox`, or the text of a `Field`): value, placement, layer, the
result of its `bounding_box()` call and the stroke width of its
attributes.  `isBox` distinguishes `BoardTextBox` from `BoardText`. -/
structure TextItem where
  layer : BoardLayer
  bbox : Box
  isBox : Bool
  value : String
  position : Vector2
  top_left : Vector2
  stroke_width : ℚ
deriving DecidableEq, Repr

instance : Inhabited TextItem :=
  ⟨⟨BoardLayer.other 0, ⟨⟨0, 0⟩, ⟨0, 0⟩⟩, false, "", ⟨0, 0⟩, ⟨0, 0⟩, 0⟩⟩

/-- One sub-shape returned by the `get_text_as_shapes` collaborator: a
stroke segment or a fill polygon.  `poly` embeds `polygons[0]` of the
returned compound polygon, the only element the source reads. -/
inductive SubShape where
  | seg (start stop : Vector2)
  | poly (p : PolygonWithHoles)
deriving DecidableEq, Repr

/-- One entry of the board-level drawings list: a shape by value, or a
reference into the board's text store (a `BoardText`/`BoardTextBox`
object, or a `Field` wrapping one).  The reference models Python object
identity: the parser mutates text objects in place. -/
inductive Drawable where
  | shape (s : ShapeItem)
  | textref (id : Nat)
  | fieldref (id : Nat)
deriving DecidableEq, Repr

/-- Input footprint (`FootprintInstance`).  `boardBBox` embeds the result
of `board.get_item_bounding_box(f)`; `textsAndFields` lists the store
references of the footprint's texts and fields; `refId`/`valId` are the
store indices of the reference and value field texts. -/
structure Footprint where
  refId : Nat
  valId : Nat
  defId : String
  excludeBom : Bool
  position : Vector2
  orientation : AngleVal
  layer : BoardLayer
  boardBBox : Box
  shapes : List ShapeItem
  pads : List PadIn
  textsAndFields : List Drawable

/-- Board title block (`get_title_block_info`). -/
structure TitleBlock where
  title : String
  revision : String
  company : String
  date : String
deriving DecidableEq, Repr

/-- Straight track (kipy `Track`). -/
structure StraightTrack where
  layer : BoardLayer
  start : Vector2
  stop : Vector2
  width : ℚ
  net : String
deriving DecidableEq, Repr

/-- Arc track; `center`, `radius`, `start_angle`, `end_angle` embed the
results of the corresponding native geometry calls. -/
structure ArcTrackIn where
  layer : BoardLayer
  center : Vector2
  radius : ℚ
  start_angle : ℚ
  end_angle : ℚ
  width : ℚ
  net : String
deriving DecidableEq, Repr

/-- Via (kipy `Via`). -/
structure ViaIn where
  position : Vector2
  padstack : PadStack
  net : String
deriving DecidableEq, Repr

/-- One element of the `get_tracks() + get_vias()` input collection. -/
inductive Track where
  | straight (t : StraightTrack)
  | arc (t : ArcTrackIn)
  | via (v : ViaIn)
deriving DecidableEq, Repr

/-- Zone input (kipy `Zone`): `filled_polygons` is the per-layer filled
polygon map, embedded as an association list. -/
structure ZoneIn where
  filled : Bool
  is_rule_area : Bool
  layers : List BoardLayer
  min_thickness : ℚ
  filled_polygons : List (BoardLayer × List PolygonWithHoles)
  net : String
deriving DecidableEq, Repr

/-- The board handle: every capability `parse` consumes, embedded as
data plus pure function fields for the IPC calls (IPC responses are
freshly deserialized values, so reads never alias board state).
`texts` is the store of live text objects; `textRefs` is `get_text()`
as references into it. -/
structure Board where
  shapes : List ShapeItem
  textRefs : List Nat
  texts : List TextItem
  footprints : List Footprint
  tracks : List Track
  vias : List ViaIn
  zones : List ZoneIn
  nets : List String
  title_block : TitleBlock
  expand : String → String
  text_shapes : TextItem → List SubShape
  pad_polys : PadIn → Option PolygonWithHoles

/-- Layer of a drawable as the comprehensions read it (`d.layer`,
through the live text object for text references). -/
def layerOf (b : Board) : Drawable → BoardLayer
  | .shape s => s.layer
  | .textref i => (b.texts.getD i default).layer
  | .fieldref i => (b.texts.getD i default).layer

/-- Result of `d.bounding_box()` on a drawable. -/
def bboxOf (b : Board) : Drawable → Box
  | .shape s => s.bbox
  | .textref i => (b.texts.getD i default).bbox
  | .fieldref i => (b.texts.getD i default).bbox

/-- Modelled from the spec: `svgpath.create_path`, the path-building
helper that renders stroke segments "into an SVG-style path string"
(§4.2); the module is not part of the provided sources, so it is
embedded as an injective serialization of the segment list. -/
def create_path (segments : List (List (List ℚ))) : String :=
  toString (repr segments)

/-- Embedding of `KiCadIPCParser.parse_text`: expand text variables in
place on the store when the value contains `$`, fetch the text's shapes
from the collaborator, and emit either a stroked path record or a
filled-polygon record.  Returns the updated board together with the
produced drawing. -/
def parse_text (b : Board) (id : Nat) : Board × Shape :=
  let t := b.texts.getD id default
  let t := if t.value.contains '$' then { t with value := b.expand t.value } else t
  let b := { b with texts := b.texts.set id t }
  let shapes := b.text_shapes t
  let offset := if t.isBox then t.top_left else t.position
  let segments := shapes.filterMap (fun s => match s with
    | .seg start stop =>
      some [normalize (start.add offset), normalize (stop.add offset)]
    | .poly _ => none)
  let polygons := shapes.filterMap (fun s => match s with
    | .seg _ _ => none
    | .poly p => some (parse_polygon (p.move offset)).1)
  (b,
    if segments ≠ [] then
      .textpath (normalizeScalar t.stroke_width) (create_path segments)
    else
      .textpolys polygons)

/-- Embedding of `KiCadIPCParser.parse_shape`: dispatch on the drawable
kind; texts and fields go through `parse_text` (possibly updating the
text store), unsupported kinds produce `none`. -/
def parse_shape (b : Board) (d : Drawable) : Board × Option Shape :=
  match d with
  | .shape s => (b, parse_shape_item s.data)
  | .textref i => ((parse_text b i).1, some (parse_text b i).2)
  | .fieldref i => ((parse_text b i).1, some (parse_text b i).2)

/-- Footprint bounding-box record. -/
structure BBoxDict where
  pos : List ℚ
  relpos : List ℚ
  size : List ℚ
  angle : ℚ
deriving DecidableEq, Repr

/-- One entry of a footprint's copper drawings list: the layer tag plus
the `parse_shape` result, exactly as the source stores it (the drawing
is `none` for an unsupported input). -/
structure FpDrawing where
  layer : String
  drawing : Option Shape
deriving DecidableEq, Repr

/-- Output footprint record. -/
structure FootprintDict where
  ref : String
  bbox : BBoxDict
  pads : List PadDict
  drawings : List FpDrawing
  layer : String
deriving DecidableEq, Repr

/-- Preferred pin-1 pad numbers of the source's heuristic. -/
def pin1Names : List String := ["1", "A", "A1", "P1", "PAD1"]

/-- Overwriting the `pin1` marker on a pad record (the dict-key
assignment `pad_dict['pin1'] = 1` and its absence). -/
def setPin1 (d : PadDict) (v : Bool) : PadDict := { d with pin1 := v }

/-- Selection step of the pin-1 heuristic (the `pin1_pads` filter and
`pin1_pad_name` choice inside `parse_footprints`), over the sorted pair
list: the first pair whose number is in the preferred set, else ("No
pads have common first pin name, pick lexicographically smallest") the
first pad number of the sorted list. -/
def codeSel (sorted : List (String × PadDict)) : String :=
  match sorted.filter (fun p => pin1Names.contains p.1) with
  | p :: _ => p.1
  | [] =>
    match sorted with
    | q :: _ => q.1
    | [] => ""

/-- Pin-1 marking block of `parse_footprints` (the `if pads:` body):
sort the `(number, pad_dict)` pairs by ascending pad-number string,
select the pin-1 number, and set `pin1` on every pad whose number equals
it.  Returns the sorted, marked pair list. -/
def markPin1 (pads : List (String × PadDict)) : List (String × PadDict) :=
  if pads = [] then pads
  else
    let sorted := insSort (fun a b => strLe a.1 b.1) pads
    sorted.map (fun p =>
      if p.1 = codeSel sorted then (p.1, setPin1 p.2 true) else p)

/-- Loop body of `parse_footprints`: translation of one footprint. -/
def parse_footprint_one (config : Config) (b : Board) (f : Footprint) :
    FootprintDict :=
  let ref := b.texts.getD f.refId default
  let footprint_rect := f.boardBBox.move f.position.neg
  let bbox : BBoxDict :=
    { pos := normalize f.position,
      relpos := normalize footprint_rect.pos,
      size := normalize footprint_rect.size,
      angle := normalize_angle f.orientation }
  -- we only care about copper drawings, silkscreen is collected at board level
  let drawings := (f.shapes.filter (fun d =>
      d.layer = BoardLayer.F_Cu ∨ d.layer = BoardLayer.B_Cu)).map (fun d =>
    { layer := if d.layer = BoardLayer.F_Cu then "F" else "B",
      drawing := (parse_shape b (Drawable.shape d)).2 : FpDrawing })
  let pads := f.pads.filterMap (fun p =>
    ((parse_pad config b.pad_polys p).1).map (fun pd => (p.number, pd)))
  let pads := (markPin1 pads).map (·.2)
  { ref := ref.value, bbox := bbox, pads := pads, drawings := drawings,
    layer := if f.layer = BoardLayer.F_Cu then "F" else "B" }

/-- Embedding of `KiCadIPCParser.parse_footprints`. -/
def parse_footprints (config : Config) (b : Board) : List FootprintDict :=
  b.footprints.map (parse_footprint_one config b)

/-- Output track/via record: the Python dict with every key that any of
the three branches can set, absent keys as `none`. -/
structure TrackDict where
  start : Option (List ℚ) := none
  stop : Option (List ℚ) := none
  center : Option (List ℚ) := none
  startangle : Option ℚ := none
  endangle : Option ℚ := none
  radius : Option ℚ := none
  width : ℚ
  drillsize : Option (List ℚ) := none
  net : Option String := none
deriving DecidableEq, Repr

/-- Per-layer output of the track/via aggregator. -/
structure TracksDict where
  F : List TrackDict
  B : List TrackDict
deriving DecidableEq, Repr

/-- Embedding of `KiCadIPCParser.parse_tracks`: bucket tracks, arc
tracks and vias into the front/back copper lists. -/
def parse_tracks (config : Config) (tracks : List Track) : TracksDict :=
  go tracks
where
  go : List Track → TracksDict
    | [] => ⟨[], []⟩
    | t :: rest =>
      let result := go rest
      match t with
      | .via v =>
        let track_dict : TrackDict :=
          { start := some (normalize v.position),
            stop := some (normalize v.position),
            width := normalizeScalar v.padstack.copper0.size.x,
            net := some v.net,
            drillsize := if v.padstack.masked
              then some (normalize v.padstack.drill.diameter) else none }
        let result := if v.padstack.layers.contains BoardLayer.F_Cu
          then { result with F := track_dict :: result.F } else result
        if v.padstack.layers.contains BoardLayer.B_Cu
          then { result with B := track_dict :: result.B } else result
      | .arc a =>
        if a.layer = BoardLayer.F_Cu ∨ a.layer = BoardLayer.B_Cu then
          let track_dict : TrackDict :=
            { center := some (normalize a.center),
              startangle := some a.start_angle,
              endangle := some a.end_angle,
              radius := some (normalizeScalar a.radius),
              width := normalizeScalar a.width,
              net := if config.include_nets then some a.net else none }
          if a.layer = BoardLayer.F_Cu then { result with F := track_dict :: result.F }
          else { result with B := track_dict :: result.B }
        else result
      | .straight s =>
        if s.layer = BoardLayer.F_Cu ∨ s.layer = BoardLayer.B_Cu then
          let track_dict : TrackDict :=
            { start := some (normalize s.start),
              stop := some (normalize s.stop),
              width := normalizeScalar s.width,
              net := if config.include_nets then some s.net else none }
          if s.layer = BoardLayer.F_Cu then { result with F := track_dict :: result.F }
          else { result with B := track_dict :: result.B }
        else result

/-- Output zone record. -/
structure ZoneDict where
  polygons : List (List (List ℚ))
  width : ℚ
  net : Option String := none
deriving DecidableEq, Repr

/-- Per-layer output of the zone aggregator. -/
structure ZonesDict where
  F : List ZoneDict
  B : List ZoneDict
deriving DecidableEq, Repr

/-- Contributions of one zone to one conductive layer's list: empty when
the zone is unfilled or a rule area, or when the filled-polygon map has
no entry for the layer; one record per occurrence of the layer in the
zone's layer list otherwise. -/
def zoneDictsFor (config : Config) (zone : ZoneIn) (target : BoardLayer) :
    List ZoneDict :=
  if !zone.filled || zone.is_rule_area then []
  else
    (zone.layers.filter (fun l => l = target)).filterMap (fun _ =>
      match zone.filled_polygons.lookup target with
      | none => none
      | some polys => some
        { polygons := polys.map (fun p => (parse_polygon p).1),
          width := normalizeScalar zone.min_thickness,
          net := if config.include_nets then some zone.net else none })

/-- Embedding of `KiCadIPCParser.parse_zones`. -/
def parse_zones (config : Config) (zones : List ZoneIn) : ZonesDict :=
  { F := zones.flatMap (fun z => zoneDictsFor config z BoardLayer.F_Cu),
    B := zones.flatMap (fun z => zoneDictsFor config z BoardLayer.B_Cu) }

/-- Bounding-box accumulation step of the `parse_edges` loop (`bbox` is
`None` until the first edge drawing, then `Box2.merge` accumulates). -/
def mergeStep (acc : Option Box) (bx : Box) : Option Box :=
  match acc with
  | none => some bx
  | some bbox => some (bbox.merge bx)

/-- Loop body of `parse_edges`: walk the drawings, translating every
Edge-Cuts drawable (threading the text store) and accumulating the
merged bounding box. -/
def parse_edges_loop (b : Board) (ds : List Drawable) (acc : Option Box) :
    Board × List (Option Shape) × Option Box :=
  match ds with
  | [] => (b, [], acc)
  | d :: rest =>
    if layerOf b d = BoardLayer.Edge_Cuts then
      let r := parse_shape b d
      let rest' := parse_edges_loop r.1 rest (mergeStep acc (bboxOf r.1 d))
      (rest'.1, r.2 :: rest'.2.1, rest'.2.2)
    else parse_edges_loop b rest acc

/-- Footprint definition shapes as drawables (what `parse_edges` appends
to the board-level drawings list). -/
def fpShapes (b : Board) : List Drawable :=
  b.footprints.flatMap (fun f => f.shapes.map Drawable.shape)

/-- Embedding of `KiCadIPCParser.parse_edges`.  The source first appends
every footprint's definition shapes to the caller's drawings list in
place; the extended list is returned explicitly here because the caller
keeps using it. -/
def parse_edges (b : Board) (drawings : List Drawable) :
    Board × List (Option Shape) × Option Box × List Drawable :=
  let drawings := drawings ++ fpShapes b
  let r := parse_edges_loop b drawings none
  (r.1, r.2.1, r.2.2, drawings)

/-- Comprehension `[parse_shape(s) for s in drawings if s.layer == target]`,
threading the text store left to right. -/
def parseShapesFiltered (b : Board) (ds : List Drawable) (target : BoardLayer) :
    Board × List (Option Shape) :=
  match ds with
  | [] => (b, [])
  | d :: rest =>
    if layerOf b d = target then
      let r := parse_shape b d
      let rest' := parseShapesFiltered r.1 rest target
      (rest'.1, r.2 :: rest'.2)
    else parseShapesFiltered b rest target

/-- Output component record of `footprint_to_component`. -/
structure Component where
  ref : String
  val : String
  footprint : String
  layer : Option String
  attr : String
deriving DecidableEq, Repr

/-- Embedding of `KiCadIPCParser.footprint_to_component` (the reference
and value fields are read through the live text store). -/
def footprint_to_component (b : Board) (f : Footprint) : Component :=
  { ref := (b.texts.getD f.refId default).value,
    val := (b.texts.getD f.valId default).value,
    footprint := f.defId,
    layer := if f.layer = BoardLayer.F_Cu then some "F"
      else if f.layer = BoardLayer.B_Cu then some "B" else none,
    attr := if f.excludeBom then "Virtual" else "Normal" }

/-- Board-outline bounding box of the scene document, in millimetres. -/
structure EdgesBBox where
  minx : ℚ
  miny : ℚ
  maxx : ℚ
  maxy : ℚ
deriving DecidableEq, Repr

/-- The assembled scene document (`pcbdata`); `bom` and `font_data` are
externally sourced opaque values and are omitted. -/
structure PcbData where
  edges_bbox : EdgesBBox
  edges : List (Option Shape)
  silkF : List (Option Shape)
  silkB : List (Option Shape)
  fabF : List (Option Shape)
  fabB : List (Option Shape)
  footprints : List FootprintDict
  metadata : TitleBlock
  tracks : Option TracksDict := none
  zones : Option ZonesDict := none
  nets : Option (List String) := none

/-- Board-level drawings list assembled at the top of `parse`:
`get_shapes()`, then `get_text()`, then every footprint's texts and
fields. -/
def boardDrawables (b : Board) : List Drawable :=
  b.shapes.map Drawable.shape ++ b.textRefs.map Drawable.textref ++
    b.footprints.flatMap (fun f => f.textsAndFields)

/-- Embedding of `KiCadIPCParser.parse`: assemble the scene document, or
fail (returning neither document nor component list) when no Edge-Cuts
drawing exists.  The first component is the board state after the parse
(the source mutates text values in place). -/
def parse (config : Config) (b0 : Board) : Board × Option PcbData × Option (List Component) :=
  let pe := parse_edges b0 (boardDrawables b0)
  let b1 := pe.1
  let edges := pe.2.1
  match pe.2.2.1 with
  | none => (b1, none, none)
  | some bbox =>
    let drawings := pe.2.2.2
    let edges_bbox : EdgesBBox :=
      { minx := normalizeScalar bbox.pos.x,
        miny := normalizeScalar bbox.pos.y,
        maxx := normalizeScalar (bbox.pos.x + bbox.size.x),
        maxy := normalizeScalar (bbox.pos.y + bbox.size.y) }
    let r2 := parseShapesFiltered b1 drawings BoardLayer.F_SilkS
    let r3 := parseShapesFiltered r2.1 drawings BoardLayer.B_SilkS
    let r4 := parseShapesFiltered r3.1 drawings BoardLayer.F_Fab
    let r5 := parseShapesFiltered r4.1 drawings BoardLayer.B_Fab
    let b5 := r5.1
    let pcbdata : PcbData :=
      { edges_bbox := edges_bbox, edges := edges,
        silkF := r2.2, silkB := r3.2, fabF := r4.2, fabB := r5.2,
        footprints := parse_footprints config b5,
        metadata := b5.title_block,
        tracks := if config.include_tracks
          then some (parse_tracks config (b5.tracks ++ b5.vias.map Track.via)) else none,
        zones := if config.include_tracks
          then some (parse_zones config b5.zones) else none,
        nets := if config.include_nets then some (insSort strLe b5.nets) else none }
    let components := b5.footprints.map (footprint_to_component b5)
    (b5, some pcbdata, some components)

/-- Spec-side trapezoid corner formula of §4.4: corner
`(±size.x/2 ± delta.y/2, ±size.y/2 ∓ delta.x/2)` at sign combination
`(s, t)`, where `s` is the x-size sign, `t` the y-size sign, the
`delta.y` term carries sign `s*t` and the `delta.x` term the opposite
sign (the `∓`). -/
def trapCorner (sx sy dx dy s t : ℚ) : List ℚ :=
  [s * (sx / 2) + s * t * (dy / 2), t * (sy / 2) - s * t * (dx / 2)]

/-!  ## Theorems -/

/-- C8: `normalize` maps a 2-D point to `[x * 1e-6, y * 1e-6]` and a
scalar length to `value * 1e-6`; applying `normalize` and then the
reverse scale (×1e6) recovers any integer input exactly (hence within
floating-point tolerance). -/
theorem claim_C8_normalize_roundtrip (x y : ℤ) :
    normalize ⟨(x : ℚ), (y : ℚ)⟩ = [(x : ℚ) * (1 / 1000000), (y : ℚ) * (1 / 1000000)] ∧
    normalizeScalar (x : ℚ) = (x : ℚ) * (1 / 1000000) ∧
    (normalize ⟨(x : ℚ), (y : ℚ)⟩).map (fun v => v * 1000000) = [(x : ℚ), (y : ℚ)] ∧
    normalizeScalar (x : ℚ) * 1000000 = (x : ℚ) := by
  refine ⟨rfl, rfl, ?_, ?_⟩
  · simp only [normalize, List.map_cons, List.map_nil, List.cons.injEq, and_true]
    constructor <;> ring_nf
  · simp only [normalizeScalar]
    ring_nf

/-- C7: the polygon extractor returns the normalized points of the
outline's point nodes in their original order; every arc node
contributes no points and produces exactly one warning; extraction is
total (a shape containing arc nodes is still emitted with the arcs
omitted). -/
theorem claim_C7_parse_polygon (p : PolygonWithHoles) :
    (parse_polygon p).1 = p.outline.filterMap (fun n => match n with
      | PolyNode.point v => some (normalize v)
      | PolyNode.arc _ => none) ∧
    (parse_polygon p).2 = (p.outline.filter (fun n => match n with
      | PolyNode.point _ => false
      | PolyNode.arc _ => true)).map (fun _ =>
        Log.warn "Arcs in polygons are not supported in IPC prototype") := by
  show (parse_polygon.go p.outline).1 = _ ∧ (parse_polygon.go p.outline).2 = _
  induction p.outline with
  | nil => exact ⟨rfl, rfl⟩
  | cons n rest ih =>
    cases n <;>
      simp [parse_polygon.go, ih.1, ih.2, List.filterMap_cons, List.filter_cons]

/-- C10: every footprint is emitted, and its assigned layer is `"F"`
when the footprint sits on front copper and `"B"` in every other case —
including footprints on neither copper layer, which are labelled `"B"`
rather than dropped or flagged. -/
theorem claim_C10_footprint_layer (c : Config) (b : Board) :
    (parse_footprints c b).map (fun fd => fd.layer) =
      b.footprints.map (fun f =>
        if f.layer = BoardLayer.F_Cu then "F" else "B") := by
  simp [parse_footprints, parse_footprint_one]

/-- C3: a trapezoid pad is emitted with shape tag `"custom"` and its
polygon is the closed quad whose corners follow the spec formula
`(±size.x/2 ± delta.y/2, ±size.y/2 ∓ delta.x/2)` over the four sign
combinations of the x- and y-size signs. -/
theorem claim_C3_trapezoid_pad (c : Config) (fetch : PadPolyFetch) (p : PadIn)
    (h : p.padstack.copper0.shape = PadStackShape.PSS_TRAPEZOID) :
    ∃ pd, (parse_pad c fetch p).1 = some pd ∧ pd.shape = "custom" ∧
      pd.polygons = some [[
        trapCorner (normalizeScalar p.padstack.copper0.size.x)
          (normalizeScalar p.padstack.copper0.size.y)
          (normalizeScalar p.padstack.copper0.trapezoid_delta.x)
          (normalizeScalar p.padstack.copper0.trapezoid_delta.y) 1 1,
        trapCorner (normalizeScalar p.padstack.copper0.size.x)
          (normalizeScalar p.padstack.copper0.size.y)
          (normalizeScalar p.padstack.copper0.trapezoid_delta.x)
          (normalizeScalar p.padstack.copper0.trapezoid_delta.y) (-1) 1,
        trapCorner (normalizeScalar p.padstack.copper0.size.x)
          (normalizeScalar p.padstack.copper0.size.y)
          (normalizeScalar p.padstack.copper0.trapezoid_delta.x)
          (normalizeScalar p.padstack.copper0.trapezoid_delta.y) (-1) (-1),
        trapCorner (normalizeScalar p.padstack.copper0.size.x)
          (normalizeScalar p.padstack.copper0.size.y)
          (normalizeScalar p.padstack.copper0.trapezoid_delta.x)
          (normalizeScalar p.padstack.copper0.trapezoid_delta.y) 1 (-1)]] := by
  by_cases hpt : p.pad_type = PadType.PT_PTH ∨ p.pad_type = PadType.PT_NPTH <;>
  cases hinets : c.include_nets <;>
    (simp only [parse_pad, h, padShapeTag]
     simp [hpt, hinets, trapCorner, normalize, normalizeScalar]
     try refine ⟨?_, ?_, ?_, ?_, ?_, ?_, ?_, ?_⟩
     all_goals try ring_nf
     all_goals try simp)

/-- Sample trapezoid pad: size 2 mm × 1 mm (2e6 × 1e6 nm), zero
trapezoid delta. -/
def sampleTrapPad : PadIn :=
  { number := "1", position := ⟨0, 0⟩, pad_type := PadType.PT_SMD,
    padstack :=
      { layers := [BoardLayer.F_Cu], angle := AngleVal.angle 0,
        copper0 :=
          { shape := PadStackShape.PSS_TRAPEZOID,
            size := ⟨2000000, 1000000⟩,
            trapezoid_delta := ⟨0, 0⟩,
            corner_rounding_ratio := 0, chamfer_ratio := 0,
            chamfered_corners := ⟨false, false, false, false⟩,
            offset := ⟨0, 0⟩ },
        drill := ⟨DrillShape.DS_CIRCLE, ⟨0, 0⟩⟩, masked := false },
    net := "N1" }

/-- Witness for C3: at size (2,1) mm and delta (0,0) the emitted quad is
the pad's own rectangle with corners (±1, ±0.5). -/
theorem claim_C3_trapezoid_pad_witness :
    sampleTrapPad.padstack.copper0.shape = PadStackShape.PSS_TRAPEZOID ∧
    ∃ pd, (parse_pad ⟨false, false⟩ (fun _ => none) sampleTrapPad).1 = some pd ∧
      pd.shape = "custom" ∧
      pd.polygons = some [[[1, 1/2], [-1, 1/2], [-1, -1/2], [1, -1/2]]] := by
  refine ⟨rfl, ?_⟩
  obtain ⟨pd, h1, h2, h3⟩ :=
    claim_C3_trapezoid_pad ⟨false, false⟩ (fun _ => none) sampleTrapPad rfl
  refine ⟨pd, h1, h2, ?_⟩
  rw [h3]
  norm_num [trapCorner, normalizeScalar, sampleTrapPad]

/-!  ## Sorting helper lemmas -/

theorem ordIns_perm (le : α → α → Bool) (a : α) (l : List α) :
    (ordIns le a l).Perm (a :: l) := by
  induction l with
  | nil => exact List.Perm.refl _
  | cons b t ih =>
    simp only [ordIns]
    split
    · exact List.Perm.refl _
    · exact ((ih.cons b).trans (List.Perm.swap a b t))

theorem insSort_perm (le : α → α → Bool) (l : List α) :
    (insSort le l).Perm l := by
  induction l with
  | nil => exact List.Perm.refl _
  | cons a t ih => exact (ordIns_perm le a (insSort le t)).trans (ih.cons a)

theorem insSort_length (le : α → α → Bool) (l : List α) :
    (insSort le l).length = l.length :=
  (insSort_perm le l).length_eq

theorem insSort_mem {le : α → α → Bool} {l : List α} {a : α}
    (h : a ∈ insSort le l) : a ∈ l :=
  (insSort_perm le l).mem_iff.mp h

/-- A generic length identity: mapping inside the `Option` does not
change how many elements a `filterMap` keeps. -/
theorem length_filterMap_map_inner (g : α → Option β) (h : α → β → γ)
    (l : List α) :
    (l.filterMap (fun a => (g a).map (h a))).length = (l.filterMap g).length := by
  induction l with
  | nil => rfl
  | cons a t ih =>
    cases hg : g a <;> simp [List.filterMap_cons, hg, ih]

/-!  ## parse_pad helper lemmas -/

/-- The pad translator never sets the `pin1` marker. -/
theorem parse_pad_pin1_false (c : Config) (fetch : PadPolyFetch) (p : PadIn) :
    ∀ pd, (parse_pad c fetch p).1 = some pd → pd.pin1 = false := by
  intro pd h
  cases hs : p.padstack.copper0.shape <;>
    (simp only [parse_pad, hs, padShapeTag] at h
     simp at h)
  all_goals subst h
  all_goals repeat' split
  all_goals rfl

theorem setPin1_eq_self {d : PadDict} {v : Bool} (h : d.pin1 = v) :
    setPin1 d v = d := by
  cases d
  simp only [setPin1]
  simp_all

/-- A shape code outside the seven-entry table is the enum's
unknown member. -/
theorem shape_not_in_table (s : PadStackShape)
    (h : s ∉ [PadStackShape.PSS_CIRCLE, PadStackShape.PSS_OVAL,
      PadStackShape.PSS_RECTANGLE, PadStackShape.PSS_TRAPEZOID,
      PadStackShape.PSS_ROUNDRECT, PadStackShape.PSS_CUSTOM,
      PadStackShape.PSS_CHAMFEREDRECT]) : padShapeTag s = "" := by
  cases s <;> simp_all [padShapeTag]

/-!  ## markPin1 helper lemmas -/

theorem markPin1_length (pads : List (String × PadDict)) :
    (markPin1 pads).length = pads.length := by
  unfold markPin1
  split
  · rfl
  · simp [insSort_length]

theorem markPin1_mem {pads : List (String × PadDict)} {q : String × PadDict}
    (h : q ∈ markPin1 pads) :
    ∃ r ∈ pads, q.2 = r.2 ∨ q.2 = setPin1 r.2 true := by
  unfold markPin1 at h
  split at h
  · exact ⟨q, h, Or.inl rfl⟩
  · obtain ⟨r, hr, hq⟩ := List.mem_map.mp h
    refine ⟨r, insSort_mem hr, ?_⟩
    split at hq
    · rw [← hq]
      exact Or.inr rfl
    · rw [← hq]
      exact Or.inl rfl

/-- C4: a pad whose padstack shape code is outside the fixed table is
translated to `none` with exactly one info-level diagnostic, and every
footprint's emitted pad list contains exactly the successfully
translated pads (a null entry never appears: each entry is a `parse_pad`
output, up to the later `pin1` marking). -/
theorem claim_C4_unknown_pad_dropped (c : Config) (b : Board) (p : PadIn)
    (hshape : p.padstack.copper0.shape ∉ [PadStackShape.PSS_CIRCLE,
      PadStackShape.PSS_OVAL, PadStackShape.PSS_RECTANGLE,
      PadStackShape.PSS_TRAPEZOID, PadStackShape.PSS_ROUNDRECT,
      PadStackShape.PSS_CUSTOM, PadStackShape.PSS_CHAMFEREDRECT]) :
    (parse_pad c b.pad_polys p).1 = none ∧
    (parse_pad c b.pad_polys p).2 = [Log.info "Unsupported pad shape, skipping."] ∧
    ∀ fd ∈ parse_footprints c b, ∃ f ∈ b.footprints,
      fd.pads.length =
        (f.pads.filterMap (fun q => (parse_pad c b.pad_polys q).1)).length ∧
      ∀ pd ∈ fd.pads, ∃ q ∈ f.pads,
        (parse_pad c b.pad_polys q).1 = some (setPin1 pd false) := by
  have htag := shape_not_in_table _ hshape
  refine ⟨?_, ?_, ?_⟩
  · simp [parse_pad, htag]
  · simp [parse_pad, htag]
  · intro fd hfd
    obtain ⟨f, hf, rfl⟩ := List.mem_map.mp hfd
    refine ⟨f, hf, ?_, ?_⟩
    · simp only [parse_footprint_one, List.length_map, markPin1_length]
      exact length_filterMap_map_inner _ _ _
    · intro pd hpd
      simp only [parse_footprint_one] at hpd
      obtain ⟨pair, hpair, hpd2⟩ := List.mem_map.mp hpd
      obtain ⟨r, hr, hcase⟩ := markPin1_mem hpair
      obtain ⟨q, hq, hqr⟩ := List.mem_filterMap.mp hr
      obtain ⟨d, hd, hpairq⟩ := Option.map_eq_some'.mp hqr
      refine ⟨q, hq, ?_⟩
      have hdr : r.2 = d := by rw [← hpairq]
      have hdpin : d.pin1 = false := parse_pad_pin1_false c b.pad_polys q d hd
      rcases hcase with hsame | hmarked
      · rw [hd]
        have : pd = d := by rw [← hpd2, hsame, hdr]
        rw [this, setPin1_eq_self hdpin]
      · rw [hd]
        have hpdval : pd = setPin1 d true := by rw [← hpd2, hmarked, hdr]
        have : setPin1 pd false = d := by
          rw [hpdval]
          simp only [setPin1]
          exact setPin1_eq_self hdpin
        rw [this]

/-- Sample pad whose padstack shape code is outside the fixed table. -/
def sampleUnknownPad : PadIn :=
  { sampleTrapPad with
    number := "2",
    padstack :=
      { sampleTrapPad.padstack with
        copper0 :=
          { sampleTrapPad.padstack.copper0 with
            shape := PadStackShape.PSS_UNKNOWN } } }

/-- Sample footprint carrying only the unknown-shape pad. -/
def sampleFpC4 : Footprint :=
  { refId := 0, valId := 0, defId := "LIB:FP", excludeBom := false,
    position := ⟨0, 0⟩, orientation := AngleVal.angle 0,
    layer := BoardLayer.F_Cu, boardBBox := ⟨⟨0, 0⟩, ⟨0, 0⟩⟩,
    shapes := [], pads := [sampleUnknownPad], textsAndFields := [] }

/-- Sample board holding only `sampleFpC4`. -/
def sampleBoardC4 : Board :=
  { shapes := [], textRefs := [], texts := [], footprints := [sampleFpC4],
    tracks := [], vias := [], zones := [], nets := [],
    title_block := ⟨"", "", "", ""⟩, expand := id,
    text_shapes := fun _ => [], pad_polys := fun _ => none }

/-- Witness for C4: the unknown-shape pad yields `none` plus one info
diagnostic, and the footprint's emitted pad list is empty. -/
theorem claim_C4_unknown_pad_dropped_witness :
    sampleUnknownPad.padstack.copper0.shape ∉ [PadStackShape.PSS_CIRCLE,
      PadStackShape.PSS_OVAL, PadStackShape.PSS_RECTANGLE,
      PadStackShape.PSS_TRAPEZOID, PadStackShape.PSS_ROUNDRECT,
      PadStackShape.PSS_CUSTOM, PadStackShape.PSS_CHAMFEREDRECT] ∧
    (parse_pad ⟨false, false⟩ sampleBoardC4.pad_polys sampleUnknownPad).1 = none ∧
    (parse_pad ⟨false, false⟩ sampleBoardC4.pad_polys sampleUnknownPad).2 =
      [Log.info "Unsupported pad shape, skipping."] ∧
    ∀ fd ∈ parse_footprints ⟨false, false⟩ sampleBoardC4, fd.pads.length = 0 := by
  have main := claim_C4_unknown_pad_dropped ⟨false, false⟩ sampleBoardC4
    sampleUnknownPad (by decide)
  refine ⟨by decide, main.1, main.2.1, ?_⟩
  intro fd hfd
  obtain ⟨f, hf, hlen, _⟩ := main.2.2 fd hfd
  have hf4 : f = sampleFpC4 := List.mem_singleton.mp hf
  rw [hlen, hf4]
  simp only [sampleFpC4, List.filterMap_cons]
  rw [main.1]
  rfl

/-!  ## String order lemmas (Python lexicographic comparison) -/

theorem lexLe_refl : ∀ a, lexLe a a = true
  | [] => rfl
  | c :: cs => by simp [lexLe, lexLe_refl cs]

theorem lexLe_total : ∀ a b, lexLe a b = true ∨ lexLe b a = true
  | [], _ => Or.inl rfl
  | _ :: _, [] => Or.inr rfl
  | a :: as, b :: bs => by
    rcases Nat.lt_trichotomy a.toNat b.toNat with h | h | h
    · left; simp [lexLe, h]
    · have h1 : ¬ a.toNat < b.toNat := by omega
      have h2 : ¬ b.toNat < a.toNat := by omega
      simpa [lexLe, h1, h2] using lexLe_total as bs
    · right; simp [lexLe, h]

theorem lexLe_trans : ∀ a b c, lexLe a b = true → lexLe b c = true →
    lexLe a c = true
  | [], _, _, _, _ => rfl
  | _ :: _, [], _, h, _ => by simp [lexLe] at h
  | _ :: _, _ :: _, [], _, h => by simp [lexLe] at h
  | a :: as, b :: bs, c :: cs, h1, h2 => by
    simp only [lexLe] at h1 h2 ⊢
    rcases Nat.lt_trichotomy a.toNat b.toNat with hab | hab | hab <;>
      rcases Nat.lt_trichotomy b.toNat c.toNat with hbc | hbc | hbc
    · have : a.toNat < c.toNat := by omega
      simp [this]
    · have : a.toNat < c.toNat := by omega
      simp [this]
    · simp [show ¬ b.toNat < c.toNat from by omega, hbc] at h2
    · have : a.toNat < c.toNat := by omega
      simp [this]
    · simp only [if_neg (by omega : ¬ a.toNat < b.toNat),
        if_neg (by omega : ¬ b.toNat < a.toNat)] at h1
      simp only [if_neg (by omega : ¬ b.toNat < c.toNat),
        if_neg (by omega : ¬ c.toNat < b.toNat)] at h2
      simp only [if_neg (by omega : ¬ a.toNat < c.toNat),
        if_neg (by omega : ¬ c.toNat < a.toNat)]
      exact lexLe_trans as bs cs h1 h2
    · simp [show ¬ b.toNat < c.toNat from by omega, hbc] at h2
    · simp [show ¬ a.toNat < b.toNat from by omega, hab] at h1
    · simp [show ¬ a.toNat < b.toNat from by omega, hab] at h1
    · simp [show ¬ a.toNat < b.toNat from by omega, hab] at h1

theorem strLe_refl (a : String) : strLe a a = true := lexLe_refl _

theorem strLe_total (a b : String) : strLe a b = true ∨ strLe b a = true :=
  lexLe_total _ _

theorem strLe_trans {a b c : String} (h1 : strLe a b = true)
    (h2 : strLe b c = true) : strLe a c = true :=
  lexLe_trans _ _ _ h1 h2

/-!  ## Sortedness of the insertion sort -/

theorem ordIns_pairwise {le : α → α → Bool}
    (htrans : ∀ a b c, le a b = true → le b c = true → le a c = true)
    (htot : ∀ a b, le a b = true ∨ le b a = true) (a : α) :
    ∀ l : List α, l.Pairwise (fun x y => le x y = true) →
      (ordIns le a l).Pairwise (fun x y => le x y = true) := by
  intro l
  induction l with
  | nil => intro _; exact List.pairwise_singleton _ _
  | cons b t ih =>
    intro hl
    rw [List.pairwise_cons] at hl
    simp only [ordIns]
    split
    · refine List.Pairwise.cons ?_ (List.Pairwise.cons hl.1 hl.2)
      intro x hx
      rcases List.mem_cons.mp hx with rfl | hx
      · assumption
      · exact htrans _ _ _ (by assumption) (hl.1 x hx)
    · refine List.Pairwise.cons ?_ (ih hl.2)
      intro x hx
      rcases List.mem_cons.mp ((ordIns_perm le a t).mem_iff.mp hx) with rfl | hx
      · rcases htot x b with h | h
        · exact absurd h (by assumption)
        · exact h
      · exact hl.1 x hx

theorem insSort_pairwise {le : α → α → Bool}
    (htrans : ∀ a b c, le a b = true → le b c = true → le a c = true)
    (htot : ∀ a b, le a b = true ∨ le b a = true) :
    ∀ l : List α, (insSort le l).Pairwise (fun x y => le x y = true) := by
  intro l
  induction l with
  | nil => exact List.Pairwise.nil
  | cons a t ih => exact ordIns_pairwise htrans htot a _ ih

/-- The head of the insertion-sorted list is a minimum. -/
theorem insSort_head_min {le : α → α → Bool}
    (htrans : ∀ a b c, le a b = true → le b c = true → le a c = true)
    (htot : ∀ a b, le a b = true ∨ le b a = true)
    {l : List α} {q : α} {rest : List α} (h : insSort le l = q :: rest) :
    ∀ x ∈ l, le q x = true := by
  intro x hx
  have hx' : x ∈ insSort le l := (insSort_perm le l).mem_iff.mpr hx
  rw [h] at hx'
  rcases List.mem_cons.mp hx' with rfl | hx'
  · rcases htot x x with h' | h' <;> exact h'
  · have hp := insSort_pairwise htrans htot l
    rw [h, List.pairwise_cons] at hp
    exact hp.1 x hx'

/-!  ## Pin-1 selection (C1) -/

/-- Spec-side pin-1 selection rule of §3: over the sorted pad-number
strings, the first number in the preferred set, or the first (hence
lexicographically smallest) number when none is preferred. -/
def pin1Selected (sortedNumbers : List String) : String :=
  match sortedNumbers.filter (fun n => pin1Names.contains n) with
  | n :: _ => n
  | [] => sortedNumbers.headD ""

/-- The sorting relation used on `(number, pad_dict)` pairs. -/
def pairLe (x y : String × PadDict) : Bool := strLe x.1 y.1

theorem pairLe_trans : ∀ x y z, pairLe x y = true → pairLe y z = true →
    pairLe x z = true := fun _ _ _ h1 h2 => strLe_trans h1 h2

theorem pairLe_total : ∀ x y, pairLe x y = true ∨ pairLe y x = true :=
  fun x y => strLe_total x.1 y.1

/-- The source's selection over sorted pairs agrees with the spec-side
selection over the sorted number strings. -/
theorem codeSel_eq_pin1Selected (sorted : List (String × PadDict)) :
    codeSel sorted = pin1Selected (sorted.map (·.1)) := by
  have hmf : (sorted.map (·.1)).filter (fun n => pin1Names.contains n) =
      (sorted.filter (fun p => pin1Names.contains p.1)).map (·.1) := by
    rw [List.filter_map]
    rfl
  unfold codeSel pin1Selected
  rw [hmf]
  cases hfil : sorted.filter (fun p => pin1Names.contains p.1) with
  | cons p t => simp
  | nil =>
    simp only [List.map_nil]
    cases sorted with
    | nil => rfl
    | cons q rest => rfl

/-- Characterization of `markPin1` on a non-empty pair list: it maps the
marking function over the sorted list, and the selected name is exactly
`pin1Selected` of the sorted number strings. -/
theorem markPin1_char (pads : List (String × PadDict)) (hne : pads ≠ []) :
    markPin1 pads = (insSort pairLe pads).map
      (fun r => if r.1 = pin1Selected ((insSort pairLe pads).map (·.1))
        then (r.1, setPin1 r.2 true) else r) := by
  unfold markPin1
  rw [if_neg hne, ← codeSel_eq_pin1Selected]
  rfl

theorem countP_eq_one_of_nodup {α} [DecidableEq α] {l : List α}
    (hnd : l.Nodup) {a : α} (ha : a ∈ l) :
    l.countP (fun n => decide (n = a)) = 1 := by
  induction l with
  | nil => cases ha
  | cons x t ih =>
    rw [List.nodup_cons] at hnd
    by_cases hax : x = a
    · rw [List.countP_cons_of_pos _ _ (by simp [hax])]
      have hzero : t.countP (fun n => decide (n = a)) = 0 := by
        rw [List.countP_eq_zero]
        intro b hb
        simp only [decide_eq_true_eq]
        intro hba
        rw [hba, ← hax] at hb
        exact hnd.1 hb
      omega
    · rw [List.countP_cons_of_neg _ _ (by simp [hax])]
      rcases List.mem_cons.mp ha with h | h
      · exact absurd h.symm hax
      · exact ih hnd.2 h

/-- C1 (amended): over the pads sorted by ascending pad-number string,
the selected number is that of the first pad whose number is in
`{1, A, A1, P1, PAD1}`, or the lexicographically smallest pad number if
none is preferred; the pads marked `pin1` are exactly those whose number
equals the selected number — hence at least one pad is marked, and
exactly one when the translated pad numbers are pairwise distinct (but
not in general, see the counterexample). -/
theorem claim_C1_pin1_selection (c : Config) (b : Board) (f : Footprint)
    (hne : (parse_footprint_one c b f).pads ≠ []) :
    ∃ sorted sel,
      sorted = insSort pairLe (f.pads.filterMap (fun p =>
        ((parse_pad c b.pad_polys p).1).map (fun pd => (p.number, pd)))) ∧
      sel = pin1Selected (sorted.map (·.1)) ∧
      (parse_footprint_one c b f).pads.map (fun pd => pd.pin1) =
        sorted.map (fun r => decide (r.1 = sel)) ∧
      (∀ m rest, (sorted.map (·.1)).filter (fun n => pin1Names.contains n) =
        m :: rest → sel = m) ∧
      ((sorted.map (·.1)).filter (fun n => pin1Names.contains n) = [] →
        sel ∈ sorted.map (·.1) ∧ ∀ n ∈ sorted.map (·.1), strLe sel n = true) ∧
      1 ≤ (parse_footprint_one c b f).pads.countP (fun pd => pd.pin1) ∧
      ((sorted.map (·.1)).Nodup →
        (parse_footprint_one c b f).pads.countP (fun pd => pd.pin1) = 1) := by
  have hpp : (parse_footprint_one c b f).pads =
      (markPin1 (f.pads.filterMap (fun p =>
        ((parse_pad c b.pad_polys p).1).map (fun pd => (p.number, pd))))).map (·.2) :=
    rfl
  set pairs := f.pads.filterMap (fun p =>
    ((parse_pad c b.pad_polys p).1).map (fun pd => (p.number, pd))) with hpairsdef
  have hpairs_ne : pairs ≠ [] := by
    intro h0
    apply hne
    rw [hpp, h0]
    rfl
  have hchar := markPin1_char pairs hpairs_ne
  set sorted := insSort pairLe pairs with hsorteddef
  set sel := pin1Selected (sorted.map (·.1)) with hseldef
  have hsorted_ne : sorted ≠ [] := by
    intro h0
    apply hpairs_ne
    have := insSort_length pairLe pairs
    rw [← hsorteddef, h0] at this
    exact List.length_eq_zero.mp this.symm
  have hpin_false : ∀ r ∈ pairs, r.2.pin1 = false := by
    intro r hr
    obtain ⟨p, hp, hmap⟩ := List.mem_filterMap.mp hr
    obtain ⟨d, hd, heq⟩ := Option.map_eq_some'.mp hmap
    have hdp := parse_pad_pin1_false c b.pad_polys p d hd
    rw [← heq]
    exact hdp
  -- the marking pattern
  have hmark : (parse_footprint_one c b f).pads.map (fun pd => pd.pin1) =
      sorted.map (fun r => decide (r.1 = sel)) := by
    rw [hpp, hchar, List.map_map, List.map_map]
    refine List.map_congr_left ?_
    intro r hr
    by_cases hcase : r.1 = sel
    · simp [Function.comp, hcase, setPin1]
    · simp only [Function.comp, if_neg hcase]
      simp [hpin_false r (insSort_mem hr), hcase]
  -- the selected number is in the sorted numbers
  have hsel_mem : sel ∈ sorted.map (·.1) := by
    rw [hseldef]
    unfold pin1Selected
    cases hfil : (sorted.map (·.1)).filter (fun n => pin1Names.contains n) with
    | cons m t =>
      exact List.mem_of_mem_filter (hfil ▸ List.mem_cons_self m t)
    | nil =>
      cases hs : sorted with
      | nil => exact absurd hs hsorted_ne
      | cons q rest => simp [hs]
  -- count of marked pads
  have hcount1 : (parse_footprint_one c b f).pads.countP (fun pd => pd.pin1) =
      sorted.countP (fun r => decide (r.1 = sel)) := by
    rw [hpp, hchar, List.countP_map, List.countP_map]
    refine List.countP_congr ?_
    intro r hr
    by_cases hcase : r.1 = sel
    · simp [Function.comp, hcase, setPin1]
    · simp only [Function.comp, if_neg hcase]
      simp [hpin_false r (insSort_mem hr), hcase]
  have hcount2 : (sorted.map (·.1)).countP (fun n => decide (n = sel)) =
      sorted.countP (fun r => decide (r.1 = sel)) := by
    rw [List.countP_map]
    exact List.countP_congr (fun r _ => by simp [Function.comp])
  have hcount : (parse_footprint_one c b f).pads.countP (fun pd => pd.pin1) =
      (sorted.map (·.1)).countP (fun n => decide (n = sel)) :=
    hcount1.trans hcount2.symm
  refine ⟨sorted, sel, rfl, rfl, hmark, ?_, ?_, ?_, ?_⟩
  · -- first preferred
    intro m rest hfil
    rw [hseldef]
    unfold pin1Selected
    rw [hfil]
  · -- lexicographically smallest when none preferred
    intro hfil
    have hsel_head : sel = (sorted.map (·.1)).headD "" := by
      rw [hseldef]
      unfold pin1Selected
      rw [hfil]
    cases hs : sorted with
    | nil => exact absurd hs hsorted_ne
    | cons q rest =>
      have hselq : sel = q.1 := by rw [hsel_head, hs]; rfl
      constructor
      · rw [hselq]
        exact List.mem_map.mpr ⟨q, List.mem_cons_self _ _, rfl⟩
      · intro n hn
        obtain ⟨x, hx, rfl⟩ := List.mem_map.mp hn
        have hins : insSort pairLe pairs = q :: rest := hsorteddef.symm.trans hs
        have hxp : x ∈ pairs := by
          refine @insSort_mem _ pairLe pairs x ?_
          rw [hins]
          exact hx
        have hmin := insSort_head_min pairLe_trans pairLe_total hins x hxp
        rw [hselq]
        exact hmin
  · -- at least one marked
    rw [hcount]
    have : 0 < (sorted.map (·.1)).countP (fun n => decide (n = sel)) := by
      rw [List.countP_pos_iff]
      exact ⟨sel, hsel_mem, by simp⟩
    omega
  · -- exactly one when numbers are distinct
    intro hnd
    rw [hcount]
    exact countP_eq_one_of_nodup hnd hsel_mem

/-- Counterexample input for C1: a footprint whose two pads share the
number "1". -/
def sampleCirclePad (num : String) : PadIn :=
  { sampleTrapPad with
    number := num,
    padstack :=
      { sampleTrapPad.padstack with
        copper0 :=
          { sampleTrapPad.padstack.copper0 with
            shape := PadStackShape.PSS_CIRCLE } } }

def sampleFpC1 : Footprint :=
  { sampleFpC4 with pads := [sampleCirclePad "1", sampleCirclePad "1"] }

def sampleBoardC1 : Board :=
  { sampleBoardC4 with footprints := [sampleFpC1] }

/-- Counterexample for C1: with two pads both numbered "1", the
footprint translator marks BOTH pads `pin1`, so "exactly one pad of the
footprint is marked pin1" fails. -/
theorem claim_C1_counterexample :
    (parse_footprints ⟨false, false⟩ sampleBoardC1).map
      (fun fd => fd.pads.countP (fun pd => pd.pin1)) = [2] := by
  decide

/-- Witness input for C1: the spec's example pad numbers "2", "1", "3". -/
def sampleFpC1Wit : Footprint :=
  { sampleFpC4 with
    pads := [sampleCirclePad "2", sampleCirclePad "1", sampleCirclePad "3"] }

def sampleBoardC1Wit : Board :=
  { sampleBoardC4 with footprints := [sampleFpC1Wit] }

/-- Witness for the amended C1: with pad numbers "2", "1", "3" the pad
numbered "1" (first in sorted order, preferred set) alone is marked. -/
theorem claim_C1_pin1_selection_witness :
    (parse_footprint_one ⟨false, false⟩ sampleBoardC1Wit sampleFpC1Wit).pads ≠ [] ∧
    (parse_footprint_one ⟨false, false⟩ sampleBoardC1Wit sampleFpC1Wit).pads.map
      (fun pd => pd.pin1) = [true, false, false] ∧
    (parse_footprint_one ⟨false, false⟩ sampleBoardC1Wit sampleFpC1Wit).pads.countP
      (fun pd => pd.pin1) = 1 := by
  have hne : (parse_footprint_one ⟨false, false⟩ sampleBoardC1Wit
      sampleFpC1Wit).pads ≠ [] := by decide
  obtain ⟨sorted, sel, hs, hsel, hmark, _, _, _, hone⟩ :=
    claim_C1_pin1_selection ⟨false, false⟩ sampleBoardC1Wit sampleFpC1Wit hne
  have hnodup : (sorted.map (·.1)).Nodup := by
    rw [hs]
    decide
  refine ⟨hne, ?_, hone hnodup⟩
  rw [hmark, hsel, hs]
  decide

/-!  ## Track/via aggregation (C6) -/

/-- Spec-side (amended C6) per-layer emission rule for one element of
the track/via collection: a via contributes one record to every
front/back copper layer its padstack spans, with its position as both
start and end, width the first copper layer's x pad size, the drill
size only when the padstack is masked, and its net name attached
unconditionally; a straight or arc track contributes to the single
front/back copper layer it sits on, with its net attached only when
net inclusion is configured on. -/
def trackEmit (config : Config) (target : BoardLayer) : Track → Option TrackDict
  | .via v =>
    if v.padstack.layers.contains target then
      some { start := some (normalize v.position),
             stop := some (normalize v.position),
             width := normalizeScalar v.padstack.copper0.size.x,
             net := some v.net,
             drillsize := if v.padstack.masked
               then some (normalize v.padstack.drill.diameter) else none }
    else none
  | .arc a =>
    if a.layer = target then
      some { center := some (normalize a.center),
             startangle := some a.start_angle,
             endangle := some a.end_angle,
             radius := some (normalizeScalar a.radius),
             width := normalizeScalar a.width,
             net := if config.include_nets then some a.net else none }
    else none
  | .straight s =>
    if s.layer = target then
      some { start := some (normalize s.start),
             stop := some (normalize s.stop),
             width := normalizeScalar s.width,
             net := if config.include_nets then some s.net else none }
    else none

/-- C6 (amended): the track/via aggregator emits, per front/back copper
layer, exactly the per-element contributions of `trackEmit` in input
order — in particular a via spanning both layers appears in both lists
with identical geometry, and its net name is attached regardless of the
net-inclusion flag. -/
theorem claim_C6_tracks_characterization (c : Config) (ts : List Track) :
    parse_tracks c ts =
      ⟨ts.filterMap (trackEmit c BoardLayer.F_Cu),
       ts.filterMap (trackEmit c BoardLayer.B_Cu)⟩ := by
  show parse_tracks.go c ts = _
  induction ts with
  | nil => rfl
  | cons t rest ih =>
    cases t with
    | via v =>
      simp only [parse_tracks.go, ih, List.filterMap_cons, trackEmit]
      by_cases hF : BoardLayer.F_Cu ∈ v.padstack.layers <;>
        by_cases hB : BoardLayer.B_Cu ∈ v.padstack.layers <;>
        simp [hF, hB]
    | arc a =>
      simp only [parse_tracks.go, ih, List.filterMap_cons, trackEmit]
      by_cases hF : a.layer = BoardLayer.F_Cu <;>
        by_cases hB : a.layer = BoardLayer.B_Cu
      · rw [hF] at hB
        cases hB
      all_goals simp [hF, hB]
    | straight s =>
      simp only [parse_tracks.go, ih, List.filterMap_cons, trackEmit]
      by_cases hF : s.layer = BoardLayer.F_Cu <;>
        by_cases hB : s.layer = BoardLayer.B_Cu
      · rw [hF] at hB
        cases hB
      all_goals simp [hF, hB]

/-- Counterexample input for C6: a via spanning both copper layers with
net "GND", parsed with net inclusion configured OFF. -/
def sampleVia : ViaIn :=
  { position := ⟨0, 0⟩,
    padstack :=
      { layers := [BoardLayer.F_Cu, BoardLayer.B_Cu], angle := AngleVal.angle 0,
        copper0 :=
          { shape := PadStackShape.PSS_CIRCLE, size := ⟨500000, 500000⟩,
            trapezoid_delta := ⟨0, 0⟩, corner_rounding_ratio := 0,
            chamfer_ratio := 0,
            chamfered_corners := ⟨false, false, false, false⟩,
            offset := ⟨0, 0⟩ },
        drill := ⟨DrillShape.DS_CIRCLE, ⟨300000, 300000⟩⟩, masked := false },
    net := "GND" }

/-- Counterexample for C6: with `include_nets = false` the via's record
still carries its net name, in both per-layer lists — refuting "the
via's net name is attached only when net inclusion is configured on". -/
theorem claim_C6_counterexample :
    (⟨false, true⟩ : Config).include_nets = false ∧
    (parse_tracks ⟨false, true⟩ [Track.via sampleVia]).F.map (fun td => td.net) =
      [some "GND"] ∧
    (parse_tracks ⟨false, true⟩ [Track.via sampleVia]).B.map (fun td => td.net) =
      [some "GND"] := by
  refine ⟨rfl, ?_, ?_⟩ <;> decide

/-!  ## Board-state frame relation (C2, C5, C9) -/

theorem getD_set_eq {α} [Inhabited α] (l : List α) (i j : Nat) (a : α) :
    (l.set i a).getD j default =
      if i = j ∧ i < l.length then a else l.getD j default := by
  rw [List.getD_eq_getElem?_getD, List.getD_eq_getElem?_getD, List.getElem?_set]
  by_cases hij : i = j
  · subst hij
    by_cases hlen : i < l.length
    · simp [hlen]
    · have hnone : l[i]? = none := List.getElem?_eq_none (by omega)
      simp [hlen, hnone]
  · simp [hij]

/-- Relation between a board and the board after (part of) a parse: all
fields except text values coincide, each text object may differ only in
its `value`, and only when the original value contained a `$` variable
reference. -/
structure TextValueOnly (b b' : Board) : Prop where
  shapes_eq : b'.shapes = b.shapes
  textRefs_eq : b'.textRefs = b.textRefs
  footprints_eq : b'.footprints = b.footprints
  tracks_eq : b'.tracks = b.tracks
  vias_eq : b'.vias = b.vias
  zones_eq : b'.zones = b.zones
  nets_eq : b'.nets = b.nets
  title_eq : b'.title_block = b.title_block
  expand_eq : b'.expand = b.expand
  text_shapes_eq : b'.text_shapes = b.text_shapes
  pad_polys_eq : b'.pad_polys = b.pad_polys
  texts_len : b'.texts.length = b.texts.length
  texts_pt : ∀ i : Nat,
    { b'.texts.getD i default with value := (b.texts.getD i default).value } =
      b.texts.getD i default
  texts_chg : ∀ i : Nat,
    b'.texts.getD i default ≠ b.texts.getD i default →
      ((b.texts.getD i default).value.contains '$') = true

theorem TextValueOnly.rfl (b : Board) : TextValueOnly b b :=
  ⟨Eq.refl _, Eq.refl _, Eq.refl _, Eq.refl _, Eq.refl _, Eq.refl _, Eq.refl _,
   Eq.refl _, Eq.refl _, Eq.refl _, Eq.refl _, Eq.refl _,
   fun _ => Eq.refl _, fun _ h => absurd (Eq.refl _) h⟩

theorem TextValueOnly.trans {a b c : Board} (hab : TextValueOnly a b)
    (hbc : TextValueOnly b c) : TextValueOnly a c := by
  refine ⟨hbc.shapes_eq.trans hab.shapes_eq, hbc.textRefs_eq.trans hab.textRefs_eq,
    hbc.footprints_eq.trans hab.footprints_eq, hbc.tracks_eq.trans hab.tracks_eq,
    hbc.vias_eq.trans hab.vias_eq, hbc.zones_eq.trans hab.zones_eq,
    hbc.nets_eq.trans hab.nets_eq, hbc.title_eq.trans hab.title_eq,
    hbc.expand_eq.trans hab.expand_eq, hbc.text_shapes_eq.trans hab.text_shapes_eq,
    hbc.pad_polys_eq.trans hab.pad_polys_eq, hbc.texts_len.trans hab.texts_len,
    ?_, ?_⟩
  · intro i
    have h1 := hab.texts_pt i
    have h2 := hbc.texts_pt i
    have h3 := congrArg (fun t => { t with value := (a.texts.getD i default).value }) h2
    simp only at h3
    exact h3.trans h1
  · intro i hne
    by_cases hba : b.texts.getD i default = a.texts.getD i default
    · have : c.texts.getD i default ≠ b.texts.getD i default := by
        rw [hba]
        exact hne
      have hc := hbc.texts_chg i this
      rw [hba] at hc
      exact hc
    · exact hab.texts_chg i hba

theorem TextValueOnly.texts_layer {b b' : Board} (h : TextValueOnly b b')
    (i : Nat) :
    (b'.texts.getD i default).layer = (b.texts.getD i default).layer :=
  calc (b'.texts.getD i default).layer
      = ({ b'.texts.getD i default with
          value := (b.texts.getD i default).value }).layer := by rfl
    _ = (b.texts.getD i default).layer := by rw [h.texts_pt i]

theorem TextValueOnly.texts_bbox {b b' : Board} (h : TextValueOnly b b')
    (i : Nat) :
    (b'.texts.getD i default).bbox = (b.texts.getD i default).bbox :=
  calc (b'.texts.getD i default).bbox
      = ({ b'.texts.getD i default with
          value := (b.texts.getD i default).value }).bbox := by rfl
    _ = (b.texts.getD i default).bbox := by rw [h.texts_pt i]

theorem TextValueOnly.layerOf_eq {b b' : Board} (h : TextValueOnly b b')
    (d : Drawable) : layerOf b' d = layerOf b d := by
  cases d with
  | shape s => rfl
  | textref i => exact h.texts_layer i
  | fieldref i => exact h.texts_layer i

theorem TextValueOnly.bboxOf_eq {b b' : Board} (h : TextValueOnly b b')
    (d : Drawable) : bboxOf b' d = bboxOf b d := by
  cases d with
  | shape s => rfl
  | textref i => exact h.texts_bbox i
  | fieldref i => exact h.texts_bbox i

theorem parse_text_step (b : Board) (i : Nat) :
    TextValueOnly b (parse_text b i).1 := by
  refine ⟨Eq.refl _, Eq.refl _, Eq.refl _, Eq.refl _, Eq.refl _, Eq.refl _,
    Eq.refl _, Eq.refl _, Eq.refl _, Eq.refl _, Eq.refl _, ?_, ?_, ?_⟩
  · simp only [parse_text]
    exact List.length_set _ _ _
  · intro j
    simp only [parse_text]
    rw [getD_set_eq]
    split
    · rename_i hcond
      obtain ⟨rfl, _⟩ := hcond
      split <;> rfl
    · rfl
  · intro j
    simp only [parse_text]
    rw [getD_set_eq]
    split
    · rename_i hcond
      obtain ⟨rfl, _⟩ := hcond
      split
      · rename_i hc
        intro _
        exact hc
      · intro hne
        exact absurd (Eq.refl _) hne
    · intro hne
      exact absurd (Eq.refl _) hne

theorem parse_shape_step (b : Board) (d : Drawable) :
    TextValueOnly b (parse_shape b d).1 := by
  cases d with
  | shape s => exact TextValueOnly.rfl b
  | textref i => exact parse_text_step b i
  | fieldref i => exact parse_text_step b i

/-- Drawable kinds without a `parse_shape` branch. -/
def isUnsupportedData : ShapeData → Bool
  | .unsupported _ => true
  | _ => false

def isUnsupported : Drawable → Bool
  | .shape s => isUnsupportedData s.data
  | _ => false

theorem parse_shape_item_isSome (sd : ShapeData) :
    (parse_shape_item sd).isSome = !isUnsupportedData sd := by
  cases sd <;> rfl

theorem parse_shape_isSome (b : Board) (d : Drawable) :
    (parse_shape b d).2.isSome = !isUnsupported d := by
  cases d with
  | shape s => exact parse_shape_item_isSome s.data
  | textref i => rfl
  | fieldref i => rfl

theorem parseShapesFiltered_char (ds : List Drawable) :
    ∀ (b : Board) (target : BoardLayer),
      TextValueOnly b (parseShapesFiltered b ds target).1 ∧
      (parseShapesFiltered b ds target).2.map Option.isSome =
        (ds.filter (fun d => layerOf b d = target)).map
          (fun d => !isUnsupported d) := by
  induction ds with
  | nil => exact fun b target => ⟨TextValueOnly.rfl b, Eq.refl _⟩
  | cons d rest ih =>
    intro b target
    have hstep : TextValueOnly b (parse_shape b d).1 := parse_shape_step b d
    obtain ⟨ih1, ih2⟩ := ih (parse_shape b d).1 target
    have hfc : rest.filter (fun x => layerOf (parse_shape b d).1 x = target) =
        rest.filter (fun x => layerOf b x = target) :=
      List.filter_congr (fun x _ => by rw [hstep.layerOf_eq])
    by_cases hl : layerOf b d = target
    · constructor
      · simp only [parseShapesFiltered, if_pos hl]
        exact hstep.trans ih1
      · simp only [parseShapesFiltered, if_pos hl, List.filter_cons]
        rw [if_pos (by simp [hl])]
        simp only [List.map_cons]
        rw [parse_shape_isSome b d, ih2, hfc]
    · constructor
      · simp only [parseShapesFiltered, if_neg hl]
        exact (ih b target).1
      · simp only [parseShapesFiltered, if_neg hl, List.filter_cons]
        rw [if_neg (by simpa using hl)]
        exact (ih b target).2

theorem parse_edges_loop_char (ds : List Drawable) :
    ∀ (b : Board) (acc : Option Box),
      TextValueOnly b (parse_edges_loop b ds acc).1 ∧
      (parse_edges_loop b ds acc).2.1.map Option.isSome =
        (ds.filter (fun d => layerOf b d = BoardLayer.Edge_Cuts)).map
          (fun d => !isUnsupported d) ∧
      (parse_edges_loop b ds acc).2.2 =
        ((ds.filter (fun d => layerOf b d = BoardLayer.Edge_Cuts)).map
          (bboxOf b)).foldl mergeStep acc := by
  induction ds with
  | nil => exact fun b acc => ⟨TextValueOnly.rfl b, Eq.refl _, Eq.refl _⟩
  | cons d rest ih =>
    intro b acc
    have hstep : TextValueOnly b (parse_shape b d).1 := parse_shape_step b d
    have hfc : rest.filter
          (fun x => layerOf (parse_shape b d).1 x = BoardLayer.Edge_Cuts) =
        rest.filter (fun x => layerOf b x = BoardLayer.Edge_Cuts) :=
      List.filter_congr (fun x _ => by rw [hstep.layerOf_eq])
    have hmc : (rest.filter (fun x => layerOf b x = BoardLayer.Edge_Cuts)).map
          (bboxOf (parse_shape b d).1) =
        (rest.filter (fun x => layerOf b x = BoardLayer.Edge_Cuts)).map
          (bboxOf b) :=
      List.map_congr_left (fun x _ => hstep.bboxOf_eq x)
    by_cases hl : layerOf b d = BoardLayer.Edge_Cuts
    · obtain ⟨ih1, ih2, ih3⟩ := ih (parse_shape b d).1
        (mergeStep acc (bboxOf (parse_shape b d).1 d))
      refine ⟨?_, ?_, ?_⟩
      · simp only [parse_edges_loop, if_pos hl]
        exact hstep.trans ih1
      · simp only [parse_edges_loop, if_pos hl, List.filter_cons]
        rw [if_pos (by simp [hl])]
        simp only [List.map_cons]
        rw [parse_shape_isSome b d, ih2, hfc]
      · simp only [parse_edges_loop, if_pos hl, List.filter_cons]
        rw [if_pos (by simp [hl])]
        simp only [List.map_cons, List.foldl_cons]
        rw [ih3, hfc, hmc, hstep.bboxOf_eq]
    · obtain ⟨ih1, ih2, ih3⟩ := ih b acc
      refine ⟨?_, ?_, ?_⟩
      · simp only [parse_edges_loop, if_neg hl]
        exact ih1
      · simp only [parse_edges_loop, if_neg hl, List.filter_cons]
        rw [if_neg (by simpa using hl)]
        exact ih2
      · simp only [parse_edges_loop, if_neg hl, List.filter_cons]
        rw [if_neg (by simpa using hl)]
        exact ih3

/-- Folding `Box2.merge` over boxes computes the componentwise min of
the min corners and max of the max corners. -/
theorem foldl_mergeStep_char (bs : List Box) :
    ∀ b0 : Box, ∃ r, bs.foldl mergeStep (some b0) = some r ∧
      r.pos.x = (bs.map (fun bx => bx.pos.x)).foldl min b0.pos.x ∧
      r.pos.y = (bs.map (fun bx => bx.pos.y)).foldl min b0.pos.y ∧
      r.pos.x + r.size.x =
        (bs.map (fun bx => bx.pos.x + bx.size.x)).foldl max
          (b0.pos.x + b0.size.x) ∧
      r.pos.y + r.size.y =
        (bs.map (fun bx => bx.pos.y + bx.size.y)).foldl max
          (b0.pos.y + b0.size.y) := by
  induction bs with
  | nil => exact fun b0 => ⟨b0, Eq.refl _, Eq.refl _, Eq.refl _, Eq.refl _, Eq.refl _⟩
  | cons bx rest ih =>
    intro b0
    obtain ⟨r, h1, h2, h3, h4, h5⟩ := ih (b0.merge bx)
    have hmx : (b0.merge bx).pos.x = min b0.pos.x bx.pos.x := rfl
    have hmy : (b0.merge bx).pos.y = min b0.pos.y bx.pos.y := rfl
    have hMx : (b0.merge bx).pos.x + (b0.merge bx).size.x =
        max (b0.pos.x + b0.size.x) (bx.pos.x + bx.size.x) := by
      simp [Box.merge]
    have hMy : (b0.merge bx).pos.y + (b0.merge bx).size.y =
        max (b0.pos.y + b0.size.y) (bx.pos.y + bx.size.y) := by
      simp [Box.merge]
    refine ⟨r, ?_, ?_, ?_, ?_, ?_⟩
    · simpa using h1
    · simpa [hmx] using h2
    · simpa [hmy] using h3
    · simpa [hMx] using h4
    · simpa [hMy] using h5

/-- All drawables scanned by the assembler: the board-level drawings
list extended (inside `parse_edges`) with every footprint's definition
shapes. -/
def allDrawables (b : Board) : List Drawable := boardDrawables b ++ fpShapes b

/-- The Edge-Cuts drawables among them: the board-outline inputs. -/
def edgeDrawables (b : Board) : List Drawable :=
  (allDrawables b).filter (fun d => layerOf b d = BoardLayer.Edge_Cuts)

/-- C2: the assembler fails — returning neither document nor component
list — exactly when the Edge-Cuts drawable set (board drawings plus
every footprint's shapes) is empty; with at least one edge drawing the
returned `edges_bbox` is the min/max over all edge drawings' bounding
boxes, converted to millimetres. -/
theorem claim_C2_failure_iff_no_edges (c : Config) (b : Board) :
    (((parse c b).2.1 = none ∧ (parse c b).2.2 = none) ↔ edgeDrawables b = []) ∧
    (∀ d0 ds, edgeDrawables b = d0 :: ds →
      (parse c b).2.1 ≠ none ∧ (parse c b).2.2 ≠ none ∧
      ((parse c b).2.1).map (fun data => data.edges_bbox) = some
        { minx := normalizeScalar
            ((ds.map (fun d => (bboxOf b d).pos.x)).foldl min (bboxOf b d0).pos.x),
          miny := normalizeScalar
            ((ds.map (fun d => (bboxOf b d).pos.y)).foldl min (bboxOf b d0).pos.y),
          maxx := normalizeScalar
            ((ds.map (fun d => (bboxOf b d).pos.x + (bboxOf b d).size.x)).foldl max
              ((bboxOf b d0).pos.x + (bboxOf b d0).size.x)),
          maxy := normalizeScalar
            ((ds.map (fun d => (bboxOf b d).pos.y + (bboxOf b d).size.y)).foldl max
              ((bboxOf b d0).pos.y + (bboxOf b d0).size.y)) }) := by
  have hloop := parse_edges_loop_char (allDrawables b) b none
  have hobb : (parse_edges b (boardDrawables b)).2.2.1 =
      ((edgeDrawables b).map (bboxOf b)).foldl mergeStep none :=
    hloop.2.2
  constructor
  · constructor
    · intro hfail
      cases hE : edgeDrawables b with
      | nil => rfl
      | cons d0 ds =>
        exfalso
        obtain ⟨r, hr, _⟩ := foldl_mergeStep_char (ds.map (bboxOf b)) (bboxOf b d0)
        have hsome : (parse_edges b (boardDrawables b)).2.2.1 = some r := by
          rw [hobb, hE]
          simpa using hr
        have : (parse c b).2.1 ≠ none := by
          simp only [parse, hsome]
          simp
        exact this hfail.1
    · intro hE
      have hnone : (parse_edges b (boardDrawables b)).2.2.1 = none := by
        rw [hobb, hE]
        rfl
      simp only [parse, hnone]
      exact ⟨by simp, by simp⟩
  · intro d0 ds hE
    obtain ⟨r, hr, h2, h3, h4, h5⟩ := foldl_mergeStep_char (ds.map (bboxOf b))
      (bboxOf b d0)
    have hsome : (parse_edges b (boardDrawables b)).2.2.1 = some r := by
      rw [hobb, hE]
      simpa [mergeStep] using hr
    refine ⟨?_, ?_, ?_⟩
    · simp only [parse, hsome]
      simp
    · simp only [parse, hsome]
      simp
    · simp only [parse, hsome]
      rw [Option.map_some']
      simp only [Option.some.injEq, EdgesBBox.mk.injEq]
      rw [List.map_map] at h2 h3 h4 h5
      exact ⟨congrArg normalizeScalar h2, congrArg normalizeScalar h3,
        congrArg normalizeScalar h4, congrArg normalizeScalar h5⟩

/-- Witness input for C2: a single valid Edge-Cuts rectangle, 10 mm ×
5 mm at the origin. -/
def edgeRectItem : ShapeItem :=
  { layer := BoardLayer.Edge_Cuts,
    bbox := ⟨⟨0, 0⟩, ⟨10000000, 5000000⟩⟩,
    data := ShapeData.rectangle ⟨0, 0⟩ ⟨10000000, 5000000⟩ 100000 false }

def sampleBoardC2 : Board :=
  { sampleBoardC4 with footprints := [], shapes := [edgeRectItem] }

/-- Witness for C2: a single Edge-Cuts rectangle produces a document
whose `edges_bbox` equals that rectangle's own bounds in mm. -/
theorem claim_C2_failure_iff_no_edges_witness :
    edgeDrawables sampleBoardC2 = [Drawable.shape edgeRectItem] ∧
    (parse ⟨false, false⟩ sampleBoardC2).2.1 ≠ none ∧
    ((parse ⟨false, false⟩ sampleBoardC2).2.1).map (fun data => data.edges_bbox) =
      some { minx := 0, miny := 0, maxx := 10, maxy := 5 } := by
  obtain ⟨h1, _, h3⟩ :=
    (claim_C2_failure_iff_no_edges ⟨false, false⟩ sampleBoardC2).2
      (Drawable.shape edgeRectItem) [] rfl
  refine ⟨rfl, h1, ?_⟩
  rw [h3]
  norm_num [bboxOf, edgeRectItem, normalizeScalar]

/-!  ## Unsupported drawables and null entries (C5) -/

theorem parse_footprint_one_drawings_isSome (c : Config) (bX : Board)
    (f : Footprint) :
    (parse_footprint_one c bX f).drawings.map (fun e => e.drawing.isSome) =
      (f.shapes.filter (fun s =>
        s.layer = BoardLayer.F_Cu ∨ s.layer = BoardLayer.B_Cu)).map
        (fun s => !isUnsupportedData s.data) := by
  simp only [parse_footprint_one, List.map_map]
  exact List.map_congr_left (fun s _ => parse_shape_item_isSome s.data)

/-- One filtered-comprehension step, seen from the pre-parse board `b`:
the resulting entries are null exactly at unsupported inputs, and the
text-value-only frame relation is preserved. -/
theorem stepFiltered {b bX : Board} (h : TextValueOnly b bX)
    (ds : List Drawable) (L : BoardLayer) :
    TextValueOnly b (parseShapesFiltered bX ds L).1 ∧
    (parseShapesFiltered bX ds L).2.map Option.isSome =
      (ds.filter (fun d => layerOf b d = L)).map (fun d => !isUnsupported d) := by
  obtain ⟨h1, h2⟩ := parseShapesFiltered_char ds bX L
  refine ⟨h.trans h1, ?_⟩
  rw [h2]
  exact congrArg (List.map _)
    (List.filter_congr (fun x _ => by rw [h.layerOf_eq]))

/-- C5 (amended): each output drawing list carries one entry per
collected input drawable, and the entry is a null (`none`) exactly when
that input drawable is of an unsupported kind — unsupported inputs are
NOT dropped from the edges, silkscreen, fabrication, or footprint copper
drawing lists (only the pad path drops them). -/
theorem claim_C5_null_entries (c : Config) (b : Board) (data : PcbData)
    (hdata : (parse c b).2.1 = some data) :
    data.edges.map Option.isSome =
      (edgeDrawables b).map (fun d => !isUnsupported d) ∧
    data.silkF.map Option.isSome =
      ((allDrawables b).filter (fun d => layerOf b d = BoardLayer.F_SilkS)).map
        (fun d => !isUnsupported d) ∧
    data.silkB.map Option.isSome =
      ((allDrawables b).filter (fun d => layerOf b d = BoardLayer.B_SilkS)).map
        (fun d => !isUnsupported d) ∧
    data.fabF.map Option.isSome =
      ((allDrawables b).filter (fun d => layerOf b d = BoardLayer.F_Fab)).map
        (fun d => !isUnsupported d) ∧
    data.fabB.map Option.isSome =
      ((allDrawables b).filter (fun d => layerOf b d = BoardLayer.B_Fab)).map
        (fun d => !isUnsupported d) ∧
    (∀ fd ∈ data.footprints, ∃ f ∈ b.footprints,
      fd.drawings.map (fun e => e.drawing.isSome) =
        (f.shapes.filter (fun s =>
          s.layer = BoardLayer.F_Cu ∨ s.layer = BoardLayer.B_Cu)).map
          (fun s => !isUnsupportedData s.data)) := by
  have hloopC := parse_edges_loop_char (allDrawables b) b none
  have hb1 : TextValueOnly b (parse_edges b (boardDrawables b)).1 := hloopC.1
  have s2 := stepFiltered hb1 (allDrawables b) BoardLayer.F_SilkS
  have s3 := stepFiltered s2.1 (allDrawables b) BoardLayer.B_SilkS
  have s4 := stepFiltered s3.1 (allDrawables b) BoardLayer.F_Fab
  have s5 := stepFiltered s4.1 (allDrawables b) BoardLayer.B_Fab
  cases hob : (parse_edges b (boardDrawables b)).2.2.1 with
  | none =>
    rw [show (parse c b).2.1 = none by simp [parse, hob]] at hdata
    cases hdata
  | some r =>
    have hdata2 : (parse c b).2.1 = some data := hdata
    simp only [parse, hob, Option.some.injEq] at hdata2
    subst hdata2
    refine ⟨hloopC.2.1, s2.2, s3.2, s4.2, s5.2, ?_⟩
    intro fd hfd
    rw [show (parse_edges b (boardDrawables b)).2.2.2 = allDrawables b from rfl]
      at hfd
    simp only [parse_footprints] at hfd
    rw [s5.1.footprints_eq] at hfd
    obtain ⟨f, hf, rfl⟩ := List.mem_map.mp hfd
    exact ⟨f, hf, parse_footprint_one_drawings_isSome c _ f⟩

/-- Counterexample input for C5: an unsupported drawable on the front
silkscreen layer (plus a valid board outline so the parse succeeds). -/
def unsupportedSilkItem : ShapeItem :=
  { layer := BoardLayer.F_SilkS,
    bbox := ⟨⟨0, 0⟩, ⟨0, 0⟩⟩,
    data := ShapeData.unsupported "BoardDimension" }

def sampleBoardC5 : Board :=
  { sampleBoardC4 with
    footprints := [],
    shapes := [edgeRectItem, unsupportedSilkItem] }

/-- Counterexample for C5: an unsupported drawable on the front
silkscreen produces a null entry in the output silkscreen list
(`silkF = [none]`), refuting "a null entry never appears in any output
drawing list". -/
theorem claim_C5_counterexample :
    ((parse ⟨false, false⟩ sampleBoardC5).2.1).map (fun data => data.silkF) =
      some [none] := by
  decide

/-- Witness for the amended C5 at the counterexample board: exactly one
entry, and it is a null. -/
theorem claim_C5_null_entries_witness :
    ((parse ⟨false, false⟩ sampleBoardC5).2.1).map
      (fun data => data.silkF.map Option.isSome) = some [false] := by
  cases hd : (parse ⟨false, false⟩ sampleBoardC5).2.1 with
  | none =>
    have hs : ((parse ⟨false, false⟩ sampleBoardC5).2.1).isSome = true := by decide
    rw [hd] at hs
    cases hs
  | some data =>
    obtain ⟨_, hsilkF, _⟩ := claim_C5_null_entries ⟨false, false⟩ sampleBoardC5
      data hd
    rw [Option.map_some', Option.some.injEq, hsilkF]
    decide

/-!  ## Board-state frame property (C9) -/

/-- C9: a full parse leaves the source board unchanged except for text
values, which may be rewritten in place (variable expansion) only when
they contain a `$` reference; no other board state is modified.  (The
custom-pad outline translation is inherently copy-local: `parse_pad`
consumes the IPC outline fetch as a pure read and never writes board
state.) -/
theorem claim_C9_frame (c : Config) (b : Board) :
    TextValueOnly b (parse c b).1 := by
  have hloopC := parse_edges_loop_char (allDrawables b) b none
  have hb1 : TextValueOnly b (parse_edges b (boardDrawables b)).1 := hloopC.1
  have s2 := stepFiltered hb1 (allDrawables b) BoardLayer.F_SilkS
  have s3 := stepFiltered s2.1 (allDrawables b) BoardLayer.B_SilkS
  have s4 := stepFiltered s3.1 (allDrawables b) BoardLayer.F_Fab
  have s5 := stepFiltered s4.1 (allDrawables b) BoardLayer.B_Fab
  cases hob : (parse_edges b (boardDrawables b)).2.2.1 with
  | none =>
    simp only [parse, hob]
    exact hb1
  | some r =>
    simp only [parse, hob]
    exact s5.1

end KiCadIPC
